import Mathlib

/-!
Shallow embedding of `cura/Machines/Models/IntentSelectionModel.py` (Cura).

The Python file is a Qt view-model: it recomputes a sorted list of "intent"
rows whenever machine/material/extruder state changes.  We embed:

* `_getDefaultProfileInformation` as the ordered association list
  `defaultProfileInformation` (an `OrderedDict` is a key-ordered assoc list);
* the body of `_update` as the pure function `updateResult`, taking the
  host collaborators' answers (global stack, material compatibility, the
  intent-category query) as an explicit environment `Env` and additionally
  reporting whether the intent-category query was reached;
* the signal wiring of `__init__`, `_onContainerChange`, `_onChange` and the
  single-shot `QTimer` as a step function `step` over `ModelState` driven by
  an `Event` type;
* Python's `str.title` (for the unknown-category name fallback) as `pyTitle`,
  restricted to the ASCII letters that category identifiers use;
* `i18nCatalog.i18nc` as the identity on the source text, which is what the
  catalog returns in the untranslated source locale.
-/

namespace IntentSelectionModel

/-- Display information for one known intent category: one value of the
`OrderedDict` built by `_getDefaultProfileInformation`.  The `"default"` entry
has no `description` key, so that field is an `Option`. -/
structure ProfileInfo where
  name : String
  description : Option String
  icon : String
  deriving DecidableEq, Repr

/-- Model of `i18nCatalog.i18nc`: in the untranslated source locale the
catalog returns the source text unchanged; the context argument only selects
the translation entry. -/
def i18nc (_context text : String) : String := text

/-- The ordered table built by `_getDefaultProfileInformation` (source lines
57-86), entry for entry and in insertion order.  An `OrderedDict` preserves
insertion order, so a `List (String × ProfileInfo)` is a faithful model. -/
def defaultProfileInformation : List (String × ProfileInfo) :=
  [ ("default",
      { name := i18nc "@label" "Default"
        description := none
        icon := "GearCheck" }),
    ("visual",
      { name := i18nc "@label" "Visual"
        description := some (i18nc "@text" "The visual profile is designed to print visual prototypes and models with the intent of high visual and surface quality.")
        icon := "Visual" }),
    ("engineering",
      { name := i18nc "@label" "Engineering"
        description := some (i18nc "@text" "The engineering profile is designed to print functional prototypes and end-use parts with the intent of better accuracy and for closer tolerances.")
        icon := "Nut" }),
    ("quick",
      { name := i18nc "@label" "Draft"
        description := some (i18nc "@text" "The draft profile is designed to print initial prototypes and concept validation with the intent of significant print time reduction.")
        icon := "SpeedOMeter" }),
    ("annealing",
      { name := i18nc "@label" "Annealing"
        description := some (i18nc "@text" "The annealing profile requires post-processing in an oven after the print is finished. This profile retains the dimensional accuracy of the printed part after annealing and improves strength, stiffness, and thermal resistance.")
        icon := "Anneal" }) ]

/-- The key list `list(default_profile_info.keys())` of `_update`
(source line 118). -/
def defaultProfileKeys : List String := defaultProfileInformation.map Prod.fst

/-- Python's `list.index` inside `try`/`except ValueError` (source lines
117-120): `some k` when `category` occurs at first position `k` in the key
list, `none` when `.index` would raise `ValueError`. -/
def keysIndexOf (category : String) : Option Nat :=
  defaultProfileKeys.findIdx? (· == category)

/-- Whether a category is a key of the static precedence table. -/
def isKnown (category : String) : Bool := (keysIndexOf category).isSome

/-- Helper for `pyTitle`, walking the characters with a flag saying whether
the previous character was a (cased) letter. -/
def titleMap : Bool → List Char → List Char
  | _, [] => []
  | prevCased, c :: cs =>
    if c.isAlpha then
      (if prevCased then c.toLower else c.toUpper) :: titleMap true cs
    else
      c :: titleMap false cs

/-- Model of Python's `str.title()` (used in `category.title()`, source line
124) on the ASCII alphabet: the first letter of every run of letters is
uppercased and the following letters are lowercased. -/
def pyTitle (s : String) : String := String.mk (titleMap false s.data)

/-- One published row, with the five roles registered in `__init__`:
`name`, `intent_category`, `weight`, `description`, `icon`. -/
structure IntentRow where
  name : String
  description : Option String
  icon : String
  intent_category : String
  weight : Nat
  deriving DecidableEq, Repr

/-- The body of the `for i, category in enumerate(available_categories)` loop
of `_update` (source lines 116-129) for one `category` at enumeration index
`i`, where `n = len(available_categories)`:

* `profile_info = default_profile_info.get(category, {})` is the `lookup`;
* `weight` is the key-list index, or `len(available_categories) + i` when
  `.index` raises `ValueError`;
* `name` falls back to `category.title()`, `description` to `None`, `icon`
  to `""` exactly when the category is not a key of the table (every table
  entry carries `name` and `icon`; only `description` can be absent, which
  the `Option` field carries). -/
def rowFor (n i : Nat) (category : String) : IntentRow :=
  let profile_info := defaultProfileInformation.lookup category
  let weight : Nat :=
    match keysIndexOf category with
    | some k => k
    | none => n + i
  { name :=
      match profile_info with
      | some info => info.name
      | none => pyTitle category
    description :=
      match profile_info with
      | some info => info.description
      | none => none
    icon :=
      match profile_info with
      | some info => info.icon
      | none => ""
    intent_category := category
    weight := weight }

/-- The `result` list built by the loop of `_update` (source lines 115-129):
one row per available category, in enumeration order, starting at index `i`;
`n` is the fixed `len(available_categories)`. -/
def resultRows (n : Nat) : Nat → List String → List IntentRow
  | _, [] => []
  | i, category :: rest => rowFor n i category :: resultRows n (i + 1) rest

/-- The sort key of `result.sort(key=lambda k: k["weight"])` (source line
131), as a relation. -/
def byWeight (a b : IntentRow) : Prop := a.weight ≤ b.weight

instance : DecidableRel byWeight := fun a b => Nat.decLe a.weight b.weight

instance : IsTotal IntentRow byWeight := ⟨fun a b => Nat.le_total a.weight b.weight⟩

instance : IsTrans IntentRow byWeight := ⟨fun _ _ _ h1 h2 => Nat.le_trans h1 h2⟩

/-- The answers the host application gives to the three collaborator calls
made by `_update`: `getGlobalContainerStack()` (`None` or a stack, modelled as
`Option Unit` since only `is None` is inspected), `activeMaterialsCompatible()`
and `IntentManager.currentAvailableIntentCategories()`. -/
structure Env where
  globalStack : Option Unit
  activeMaterialsCompatible : Bool
  currentAvailableIntentCategories : List String
  deriving DecidableEq, Repr

/-- The body of `_update` (source lines 96-133).  Returns the list passed to
`setItems` together with a flag that is `true` exactly when control reached
the `IntentManager.getInstance().currentAvailableIntentCategories()` call:
both early returns publish `[]` before that call. -/
def updateResult (env : Env) : List IntentRow × Bool :=
  match env.globalStack with
  | none => ([], false)
  | some _ =>
    if !env.activeMaterialsCompatible then ([], false)
    else
      let available_categories := env.currentAvailableIntentCategories
      let result := resultRows available_categories.length 0 available_categories
      (List.insertionSort byWeight result, true)

/-- The list `_update` publishes through `setItems`. -/
def update (env : Env) : List IntentRow := (updateResult env).1

/-- Whether `_update` queried the intent manager for available categories. -/
def queriedCategories (env : Env) : Bool := (updateResult env).2

/-- `ListModel.setItems`: the new list wholly replaces the old content. -/
def setItems (_old new_items : List IntentRow) : List IntentRow := new_items

/-- A container of the registry, reduced to the metadata `_onContainerChange`
inspects. -/
structure Container where
  metadata : List (String × String)
  deriving DecidableEq, Repr

/-- `container.getMetaDataEntry("type")`: `none` when the entry is absent. -/
def getMetaDataEntry (c : Container) (entry : String) : Option String :=
  c.metadata.lookup entry

/-- The events the model reacts to, as wired in `__init__` (source lines
39-53): container registry add/remove, the four machine/extruder change
signals, and the timeout of the single-shot update timer. -/
inductive Event where
  | containerAdded (c : Container)
  | containerRemoved (c : Container)
  | activeMaterialChanged
  | activeVariantChanged
  | extruderChanged
  | extrudersChanged
  | timerTimeout
  deriving DecidableEq, Repr

/-- The mutable state of the model object: whether the single-shot
`_update_timer` is currently running, how many times `_update` has run, and
the currently published items. -/
structure ModelState where
  timerRunning : Bool
  recomputeCount : Nat
  items : List IntentRow
  deriving DecidableEq, Repr

/-- One execution of `_update`: bumps the recompute count and replaces the
items with the freshly computed list. -/
def doUpdate (env : Env) (s : ModelState) : ModelState :=
  { s with
    recomputeCount := s.recomputeCount + 1
    items := setItems s.items (update env) }

/-- `_onContainerChange` (source lines 87-91): runs `_update` directly iff
the container's `"type"` metadata entry equals `"intent"`. -/
def onContainerChange (env : Env) (s : ModelState) (c : Container) : ModelState :=
  if getMetaDataEntry c "type" = some "intent" then doUpdate env s else s

/-- `_onChange` (source lines 93-94): `self._update_timer.start()`, restarting
the single-shot timer. -/
def onChange (s : ModelState) : ModelState := { s with timerRunning := true }

/-- The reaction to one event, following the `connect` wiring of `__init__`:
`containerAdded`/`containerRemoved` go to `_onContainerChange`; the material,
variant, extruder and extruder-set signals are connected directly to
`_update`; the timer's `timeout` is connected to `_update`, and a single-shot
timer stops before its timeout fires (and does not fire when not running). -/
def step (env : Env) (s : ModelState) : Event → ModelState
  | .containerAdded c => onContainerChange env s c
  | .containerRemoved c => onContainerChange env s c
  | .activeMaterialChanged => doUpdate env s
  | .activeVariantChanged => doUpdate env s
  | .extruderChanged => doUpdate env s
  | .extrudersChanged => doUpdate env s
  | .timerTimeout =>
    if s.timerRunning then doUpdate env { s with timerRunning := false } else s

/-- Processing a sequence of events in order. -/
def run (env : Env) (s : ModelState) : List Event → ModelState
  | [] => s
  | e :: es => run env (step env s e) es

/-- The state right after `__init__`: no recompute has run yet and the final
`self._onChange()` has started the timer. -/
def initState : ModelState :=
  onChange { timerRunning := false, recomputeCount := 0, items := [] }

/-- Strict version of the sort key, used to pin down the relative order of
rows with pairwise distinct weights. -/
def byWeightLT (a b : IntentRow) : Prop := a.weight < b.weight

instance : IsAntisymm IntentRow byWeightLT :=
  ⟨fun a _ h1 h2 => absurd (Nat.lt_trans h1 h2) (Nat.lt_irrefl a.weight)⟩

/-- Fixture: an active configuration whose only available category is the
unlisted `"custom"`. -/
def envSoleUnknown : Env :=
  { globalStack := some ()
    activeMaterialsCompatible := true
    currentAvailableIntentCategories := ["custom"] }

/-- Fixture: an active configuration offering the last table category
`"annealing"` together with the unlisted `"custom"`. -/
def envAnnealingCustom : Env :=
  { globalStack := some ()
    activeMaterialsCompatible := true
    currentAvailableIntentCategories := ["annealing", "custom"] }

/-- Fixture: an active configuration offering only `"default"`. -/
def envDefaultOnly : Env :=
  { globalStack := some ()
    activeMaterialsCompatible := true
    currentAvailableIntentCategories := ["default"] }

/-- Fixture: an active configuration offering every table category plus the
unlisted `"custom"`. -/
def envAllPlusCustom : Env :=
  { globalStack := some ()
    activeMaterialsCompatible := true
    currentAvailableIntentCategories :=
      ["default", "visual", "engineering", "quick", "annealing", "custom"] }

/-- Fixture: an active configuration offering only `"engineering"`. -/
def envEngineeringOnly : Env :=
  { globalStack := some ()
    activeMaterialsCompatible := true
    currentAvailableIntentCategories := ["engineering"] }

/-- Fixture: no active machine configuration is selected. -/
def envNoStack : Env :=
  { globalStack := none
    activeMaterialsCompatible := true
    currentAvailableIntentCategories := ["engineering"] }

/-- Fixture: an active configuration whose materials are incompatible. -/
def envIncompatible : Env :=
  { globalStack := some ()
    activeMaterialsCompatible := false
    currentAvailableIntentCategories := ["engineering"] }

/-- Fixture: a container whose metadata marks it as an intent profile. -/
def intentContainer : Container := { metadata := [("type", "intent")] }

/-- Fixture: a container of a different type. -/
def qualityContainer : Container := { metadata := [("type", "quality")] }

/-! ### Helper lemmas -/

theorem findIdxQ_lt_length {α : Type} {p : α → Bool} :
    ∀ {l : List α} {i : Nat}, l.findIdx? p = some i → i < l.length := by
  intro l
  induction l with
  | nil => intro i h; simp [List.findIdx?] at h
  | cons x xs ih =>
    intro i h
    rw [List.findIdx?_cons] at h
    by_cases hp : p x
    · simp [hp] at h
      simp only [List.length_cons]
      omega
    · simp [hp] at h
      obtain ⟨j, hj, hji⟩ := h
      have := ih hj
      simp only [List.length_cons]
      omega

theorem lookup_isSome_eq_findIdxQ (c : String) :
    ∀ l : List (String × ProfileInfo),
      (l.lookup c).isSome = ((l.map Prod.fst).findIdx? (· == c)).isSome := by
  intro l
  induction l with
  | nil => rfl
  | cons kv tl ih =>
    obtain ⟨k, v⟩ := kv
    by_cases h : c = k
    · subst h
      simp [List.lookup_cons, List.findIdx?_cons]
    · have hck : (c == k) = false := beq_eq_false_iff_ne.mpr h
      have hkc : (k == c) = false := beq_eq_false_iff_ne.mpr (Ne.symm h)
      simp [List.lookup_cons, List.findIdx?_cons, hck, hkc, ih]

theorem lookup_defaultProfile_isSome (c : String) :
    (defaultProfileInformation.lookup c).isSome = isKnown c :=
  lookup_isSome_eq_findIdxQ c defaultProfileInformation

theorem rowFor_intent_category (n i : Nat) (c : String) :
    (rowFor n i c).intent_category = c := rfl

theorem rowFor_of_unknown {c : String} (hk : isKnown c = false) (n i : Nat) :
    rowFor n i c =
      { name := pyTitle c, description := none, icon := "",
        intent_category := c, weight := n + i } := by
  have h1 : keysIndexOf c = none := by
    cases hkk : keysIndexOf c with
    | none => rfl
    | some k => simp [isKnown, hkk] at hk
  have h2 : defaultProfileInformation.lookup c = none := by
    have h := lookup_defaultProfile_isSome c
    rw [hk] at h
    cases hl : defaultProfileInformation.lookup c with
    | none => rfl
    | some info => rw [hl] at h; simp at h
  simp [rowFor, h1, h2]

theorem rowFor_of_known {c : String} (hk : isKnown c = true) (n i : Nat) :
    ∃ info k, defaultProfileInformation.lookup c = some info ∧
      keysIndexOf c = some k ∧
      rowFor n i c =
        { name := info.name, description := info.description, icon := info.icon,
          intent_category := c, weight := k } := by
  have hks : (keysIndexOf c).isSome = true := hk
  obtain ⟨k, hkk⟩ := Option.isSome_iff_exists.mp hks
  have hls : (defaultProfileInformation.lookup c).isSome = true := by
    rw [lookup_defaultProfile_isSome]; exact hk
  obtain ⟨info, hinfo⟩ := Option.isSome_iff_exists.mp hls
  exact ⟨info, k, hinfo, hkk, by simp [rowFor, hinfo, hkk]⟩

theorem known_weight_lt {c : String} {k : Nat} (h : keysIndexOf c = some k) :
    k < defaultProfileKeys.length :=
  findIdxQ_lt_length h

theorem map_intent_category_resultRows {n : Nat} :
    ∀ (cats : List String) (i : Nat),
      (resultRows n i cats).map (·.intent_category) = cats := by
  intro cats
  induction cats with
  | nil => intro i; rfl
  | cons c rest ih => intro i; simp [resultRows, rowFor_intent_category, ih]

theorem of_mem_resultRows {n : Nat} :
    ∀ {cats : List String} {i : Nat} {r : IntentRow}, r ∈ resultRows n i cats →
      ∃ j, ∃ h : j < cats.length, r = rowFor n (i + j) (cats.get ⟨j, h⟩) := by
  intro cats
  induction cats with
  | nil => intro i r h; simp [resultRows] at h
  | cons c rest ih =>
    intro i r h
    rcases List.mem_cons.mp h with h1 | h2
    · exact ⟨0, Nat.succ_pos _, by simpa using h1⟩
    · obtain ⟨j, hj, hr⟩ := ih h2
      refine ⟨j + 1, Nat.succ_lt_succ hj, ?_⟩
      have harith : i + 1 + j = i + (j + 1) := by omega
      rw [harith] at hr
      simpa using hr

theorem rowFor_mem_resultRows {n : Nat} :
    ∀ {cats : List String} {i j : Nat} (h : j < cats.length),
      rowFor n (i + j) (cats.get ⟨j, h⟩) ∈ resultRows n i cats := by
  intro cats
  induction cats with
  | nil => intro i j h; exact absurd h (Nat.not_lt_zero j)
  | cons c rest ih =>
    intro i j h
    cases j with
    | zero => simp [resultRows]
    | succ j' =>
      have hmem := ih (i := i + 1) (Nat.lt_of_succ_lt_succ h)
      have harith : i + 1 + j' = i + (j' + 1) := by omega
      rw [harith] at hmem
      simp only [resultRows, List.mem_cons]
      right
      simpa using hmem

theorem le_weight_of_unknown_mem {n : Nat} :
    ∀ {cats : List String} {i : Nat} {r : IntentRow}, r ∈ resultRows n i cats →
      isKnown r.intent_category = false → n + i ≤ r.weight := by
  intro cats
  induction cats with
  | nil => intro i r h; simp [resultRows] at h
  | cons c rest ih =>
    intro i r h hr
    rcases List.mem_cons.mp h with h1 | h2
    · subst h1
      rw [rowFor_intent_category] at hr
      rw [rowFor_of_unknown hr]
    · have := ih h2 hr
      omega

theorem weight_lt_of_known_mem {n : Nat} :
    ∀ {cats : List String} {i : Nat} {r : IntentRow}, r ∈ resultRows n i cats →
      isKnown r.intent_category = true → r.weight < defaultProfileKeys.length := by
  intro cats
  induction cats with
  | nil => intro i r h; simp [resultRows] at h
  | cons c rest ih =>
    intro i r h hr
    rcases List.mem_cons.mp h with h1 | h2
    · subst h1
      rw [rowFor_intent_category] at hr
      obtain ⟨info, k, _, hkk, hrow⟩ := rowFor_of_known hr n i
      rw [hrow]
      exact known_weight_lt hkk
    · exact ih h2 hr

theorem pairwise_unknown_weight {n : Nat} :
    ∀ (cats : List String) (i : Nat),
      (resultRows n i cats).Pairwise
        (fun a b => isKnown a.intent_category = false →
          isKnown b.intent_category = false → a.weight < b.weight) := by
  intro cats
  induction cats with
  | nil => intro i; exact List.Pairwise.nil
  | cons c rest ih =>
    intro i
    refine List.pairwise_cons.mpr ⟨fun b hb ha hbu => ?_, ih (i + 1)⟩
    rw [rowFor_intent_category] at ha
    rw [rowFor_of_unknown ha]
    have := le_weight_of_unknown_mem hb hbu
    simp only
    omega

theorem filter_map_resultRows {n : Nat} :
    ∀ (cats : List String) (i : Nat),
      ((resultRows n i cats).filter
          (fun r => !isKnown r.intent_category)).map (·.intent_category)
        = cats.filter (fun c => !isKnown c) := by
  intro cats
  induction cats with
  | nil => intro i; rfl
  | cons c rest ih =>
    intro i
    by_cases hc : isKnown c
    · simp [resultRows, List.filter_cons, rowFor_intent_category, hc, ih]
    · have hc' : isKnown c = false := by
        cases h : isKnown c
        · rfl
        · exact absurd h hc
      simp [resultRows, List.filter_cons, rowFor_intent_category, hc', ih]

theorem update_inactive {env : Env}
    (h : env.globalStack = none ∨ env.activeMaterialsCompatible = false) :
    updateResult env = ([], false) := by
  rcases h with h | h
  · unfold updateResult
    rw [h]
  · unfold updateResult
    cases hg : env.globalStack with
    | none => rfl
    | some u => rw [h]; rfl

theorem update_active {env : Env}
    (h1 : env.globalStack = some ()) (h2 : env.activeMaterialsCompatible = true) :
    update env =
      List.insertionSort byWeight
        (resultRows env.currentAvailableIntentCategories.length 0
          env.currentAvailableIntentCategories) := by
  unfold update updateResult
  rw [h1, h2]
  rfl

theorem sorted_update (env : Env) : (update env).Sorted byWeight := by
  cases hg : env.globalStack with
  | none =>
    have h : updateResult env = ([], false) := update_inactive (Or.inl hg)
    unfold update
    rw [h]
    exact List.sorted_nil
  | some u =>
    cases hc : env.activeMaterialsCompatible with
    | false =>
      have h : updateResult env = ([], false) := update_inactive (Or.inr hc)
      unfold update
      rw [h]
      exact List.sorted_nil
    | true =>
      rw [update_active hg hc]
      exact List.sorted_insertionSort byWeight _

theorem update_perm_resultRows {env : Env}
    (h1 : env.globalStack = some ()) (h2 : env.activeMaterialsCompatible = true) :
    List.Perm (update env)
      (resultRows env.currentAvailableIntentCategories.length 0
        env.currentAvailableIntentCategories) := by
  rw [update_active h1 h2]
  exact List.perm_insertionSort byWeight _

/-! ### Claim theorems -/

/-- C4: for every recompute, if no active machine configuration is selected or
the active materials are not compatible with each other, `_update` publishes
the empty list and never reaches the intent-category query; the embedding is a
total function, so absence of data is an empty list rather than a raised
error. -/
theorem intent_update_empty_on_missing_data (env : Env)
    (h : env.globalStack = none ∨ env.activeMaterialsCompatible = false) :
    update env = [] ∧ queriedCategories env = false := by
  have he := update_inactive h
  unfold update queriedCategories
  rw [he]
  exact ⟨rfl, rfl⟩

theorem intent_update_empty_on_missing_data_witness :
    update envNoStack = [] ∧ queriedCategories envNoStack = false :=
  intent_update_empty_on_missing_data envNoStack (Or.inl rfl)

/-- C5: for every recompute, the list handed to `setItems` is sorted in
ascending order of the `weight` field, and `setItems` makes it wholly replace
the previously published content, whatever that was. -/
theorem intent_update_sorted_and_replaces (env : Env) (previous : List IntentRow) :
    (setItems previous (update env)).Sorted byWeight
    ∧ setItems previous (update env) = update env :=
  ⟨sorted_update env, rfl⟩

/-- C8: a container-added or container-removed event runs a recompute if and
only if the container's `"type"` metadata entry equals `"intent"`; events for
all other containers leave the model state completely unchanged. -/
theorem intent_container_change_filter (env : Env) (s : ModelState) (c : Container) :
    ((step env s (Event.containerAdded c)).recomputeCount = s.recomputeCount + 1
        ↔ getMetaDataEntry c "type" = some "intent")
    ∧ ((step env s (Event.containerRemoved c)).recomputeCount = s.recomputeCount + 1
        ↔ getMetaDataEntry c "type" = some "intent")
    ∧ (getMetaDataEntry c "type" ≠ some "intent" →
        step env s (Event.containerAdded c) = s
        ∧ step env s (Event.containerRemoved c) = s) := by
  by_cases h : getMetaDataEntry c "type" = some "intent"
  · refine ⟨?_, ?_, fun hne => absurd h hne⟩
    · simp [step, onContainerChange, h, doUpdate]
    · simp [step, onContainerChange, h, doUpdate]
  · have hadd : step env s (Event.containerAdded c) = s := by
      simp [step, onContainerChange, h]
    have hrem : step env s (Event.containerRemoved c) = s := by
      simp [step, onContainerChange, h]
    refine ⟨?_, ?_, fun _ => ⟨hadd, hrem⟩⟩
    · rw [hadd]
      exact iff_of_false (by omega) h
    · rw [hrem]
      exact iff_of_false (by omega) h

theorem intent_container_change_filter_witness :
    ((step envDefaultOnly initState (Event.containerAdded intentContainer)).recomputeCount
        = initState.recomputeCount + 1)
    ∧ (step envDefaultOnly initState (Event.containerAdded qualityContainer) = initState
        ∧ step envDefaultOnly initState (Event.containerRemoved qualityContainer) = initState) :=
  ⟨(intent_container_change_filter envDefaultOnly initState intentContainer).1.mpr rfl,
   (intent_container_change_filter envDefaultOnly initState qualityContainer).2.2 (by decide)⟩

/-- C9: for every recompute with an active configuration and compatible
materials, the published list has exactly one row per available category: the
multiset of `intent_category` fields is a permutation of the available
category list, and the row count equals the category count. -/
theorem intent_update_rows_match_categories (env : Env)
    (h1 : env.globalStack = some ()) (h2 : env.activeMaterialsCompatible = true) :
    List.Perm ((update env).map (·.intent_category))
      env.currentAvailableIntentCategories
    ∧ (update env).length = env.currentAvailableIntentCategories.length := by
  have hp := update_perm_resultRows h1 h2
  have hm := hp.map (·.intent_category)
  rw [map_intent_category_resultRows] at hm
  refine ⟨hm, ?_⟩
  have hl := hm.length_eq
  simpa using hl

theorem intent_update_rows_match_categories_witness :
    List.Perm ((update envAnnealingCustom).map (·.intent_category))
      envAnnealingCustom.currentAvailableIntentCategories
    ∧ (update envAnnealingCustom).length
        = envAnnealingCustom.currentAvailableIntentCategories.length :=
  intent_update_rows_match_categories envAnnealingCustom rfl rfl

/-- C10: for every recompute in which `"default"` is available, its published
row has `description = None`: the static table's `"default"` entry defines a
name and an icon but no description. -/
theorem intent_default_description_none (env : Env)
    (h1 : env.globalStack = some ()) (h2 : env.activeMaterialsCompatible = true)
    (hd : "default" ∈ env.currentAvailableIntentCategories) :
    defaultProfileInformation.lookup "default"
        = some { name := "Default", description := none, icon := "GearCheck" }
    ∧ (∃ r, r ∈ update env ∧ r.intent_category = "default" ∧ r.description = none)
    ∧ ∀ r, r ∈ update env → r.intent_category = "default" → r.description = none := by
  refine ⟨rfl, ?_, ?_⟩
  · obtain ⟨j, hget⟩ := List.mem_iff_get.mp hd
    refine ⟨rowFor env.currentAvailableIntentCategories.length (0 + j.val) "default",
      ?_, rfl, rfl⟩
    apply (update_perm_resultRows h1 h2).mem_iff.mpr
    have hmem := rowFor_mem_resultRows
      (n := env.currentAvailableIntentCategories.length) (i := 0) (j := j.val) j.isLt
    rw [show env.currentAvailableIntentCategories.get ⟨j.val, j.isLt⟩ = "default" from hget]
      at hmem
    exact hmem
  · intro r hr hcat
    have hr' := (update_perm_resultRows h1 h2).mem_iff.mp hr
    obtain ⟨j, hj, hEq⟩ := of_mem_resultRows hr'
    rw [hEq] at hcat ⊢
    rw [rowFor_intent_category] at hcat
    rw [hcat]
    rfl

/-- C6: for every recompute with an active configuration and compatible
materials, each available category that is a key of the static precedence
table (for example `"engineering"`) yields a row whose name, description and
icon equal the fixed entries of that table and whose weight equals the
category's position in the table's key list. -/
theorem intent_known_category_row (env : Env)
    (h1 : env.globalStack = some ()) (h2 : env.activeMaterialsCompatible = true)
    (category : String) (hc : category ∈ env.currentAvailableIntentCategories)
    (hk : isKnown category = true) :
    ∃ r info k, r ∈ update env ∧
      defaultProfileInformation.lookup category = some info ∧
      keysIndexOf category = some k ∧
      r.intent_category = category ∧ r.name = info.name ∧
      r.description = info.description ∧ r.icon = info.icon ∧ r.weight = k := by
  obtain ⟨j, hget⟩ := List.mem_iff_get.mp hc
  obtain ⟨info, k, hlook, hkidx, hrow⟩ :=
    rowFor_of_known hk env.currentAvailableIntentCategories.length (0 + j.val)
  refine ⟨rowFor env.currentAvailableIntentCategories.length (0 + j.val) category,
    info, k, ?_, hlook, hkidx, rfl, ?_, ?_, ?_, ?_⟩
  · apply (update_perm_resultRows h1 h2).mem_iff.mpr
    have hmem := rowFor_mem_resultRows
      (n := env.currentAvailableIntentCategories.length) (i := 0) (j := j.val) j.isLt
    rw [show env.currentAvailableIntentCategories.get ⟨j.val, j.isLt⟩ = category from hget]
      at hmem
    exact hmem
  · rw [hrow]
  · rw [hrow]
  · rw [hrow]
  · rw [hrow]

theorem intent_known_category_row_witness :
    ∃ r info k, r ∈ update envEngineeringOnly ∧
      defaultProfileInformation.lookup "engineering" = some info ∧
      keysIndexOf "engineering" = some k ∧
      r.intent_category = "engineering" ∧ r.name = info.name ∧
      r.description = info.description ∧ r.icon = info.icon ∧ r.weight = k :=
  intent_known_category_row envEngineeringOnly rfl rfl "engineering" (by decide) rfl

/-- C7: for every recompute with an active configuration and compatible
materials, each available category that is not a key of the static precedence
table yields a row whose name is the title-cased category identifier and whose
icon is the empty string. -/
theorem intent_unknown_category_row (env : Env)
    (h1 : env.globalStack = some ()) (h2 : env.activeMaterialsCompatible = true)
    (category : String) (hc : category ∈ env.currentAvailableIntentCategories)
    (hk : isKnown category = false) :
    ∃ r, r ∈ update env ∧ r.intent_category = category ∧
      r.name = pyTitle category ∧ r.icon = "" := by
  obtain ⟨j, hget⟩ := List.mem_iff_get.mp hc
  refine ⟨rowFor env.currentAvailableIntentCategories.length (0 + j.val) category,
    ?_, rfl, ?_, ?_⟩
  · apply (update_perm_resultRows h1 h2).mem_iff.mpr
    have hmem := rowFor_mem_resultRows
      (n := env.currentAvailableIntentCategories.length) (i := 0) (j := j.val) j.isLt
    rw [show env.currentAvailableIntentCategories.get ⟨j.val, j.isLt⟩ = category from hget]
      at hmem
    exact hmem
  · rw [rowFor_of_unknown hk]
  · rw [rowFor_of_unknown hk]

theorem intent_unknown_category_row_witness :
    ∃ r, r ∈ update envSoleUnknown ∧ r.intent_category = "custom" ∧
      r.name = pyTitle "custom" ∧ r.icon = "" :=
  intent_unknown_category_row envSoleUnknown rfl rfl "custom" (by decide) rfl

theorem intent_default_description_none_witness :
    defaultProfileInformation.lookup "default"
        = some { name := "Default", description := none, icon := "GearCheck" }
    ∧ (∃ r, r ∈ update envDefaultOnly ∧ r.intent_category = "default"
        ∧ r.description = none)
    ∧ ∀ r, r ∈ update envDefaultOnly → r.intent_category = "default" →
        r.description = none :=
  intent_default_description_none envDefaultOnly rfl rfl (by decide)

/-- C1 counterexample: with the single unlisted available category `"custom"`,
the published row carries fallback weight `1` — the available-category count
plus the enumeration index `0` — not the table size `5` plus the index, and
`1` is smaller than the table size, refuting both parts of the claim. -/
theorem intent_fallback_weight_counterexample :
    (update envSoleUnknown).map (fun r => (r.intent_category, r.weight))
        = [("custom", 1)]
    ∧ isKnown "custom" = false
    ∧ defaultProfileKeys.length = 5
    ∧ ¬ (defaultProfileKeys.length ≤ 1)
    ∧ (1 : Nat) ≠ defaultProfileKeys.length + 0 :=
  ⟨rfl, rfl, rfl, by decide, by decide⟩

/-- C1 (amended): for every recompute with an active configuration and
compatible materials, each available category that is not a key of the static
precedence table is assigned a weight equal to the number of available
categories plus the category's enumeration index in the available-category
list (the code uses `len(available_categories) + i`, not the table size); in
particular every such fallback weight is greater than or equal to the number
of available categories. -/
theorem intent_fallback_weight (env : Env)
    (h1 : env.globalStack = some ()) (h2 : env.activeMaterialsCompatible = true) :
    (∀ j : Fin env.currentAvailableIntentCategories.length,
        isKnown (env.currentAvailableIntentCategories.get j) = false →
        rowFor env.currentAvailableIntentCategories.length j.val
            (env.currentAvailableIntentCategories.get j) ∈ update env
          ∧ (rowFor env.currentAvailableIntentCategories.length j.val
                (env.currentAvailableIntentCategories.get j)).weight
              = env.currentAvailableIntentCategories.length + j.val)
    ∧ ∀ r, r ∈ update env → isKnown r.intent_category = false →
        env.currentAvailableIntentCategories.length ≤ r.weight := by
  constructor
  · intro j hj
    constructor
    · apply (update_perm_resultRows h1 h2).mem_iff.mpr
      have hmem := rowFor_mem_resultRows
        (n := env.currentAvailableIntentCategories.length) (i := 0) (j := j.val) j.isLt
      rw [Nat.zero_add] at hmem
      exact hmem
    · rw [rowFor_of_unknown hj]
  · intro r hr hu
    have hm := (update_perm_resultRows h1 h2).mem_iff.mp hr
    have hle := le_weight_of_unknown_mem hm hu
    omega

theorem intent_fallback_weight_witness :
    (rowFor envSoleUnknown.currentAvailableIntentCategories.length 0
        (envSoleUnknown.currentAvailableIntentCategories.get ⟨0, Nat.one_pos⟩)
      ∈ update envSoleUnknown)
    ∧ (rowFor envSoleUnknown.currentAvailableIntentCategories.length 0
        (envSoleUnknown.currentAvailableIntentCategories.get ⟨0, Nat.one_pos⟩)).weight
      = envSoleUnknown.currentAvailableIntentCategories.length + 0 :=
  (intent_fallback_weight envSoleUnknown rfl rfl).1 ⟨0, Nat.one_pos⟩ rfl

/-- C2 counterexample: with available categories `["annealing", "custom"]` the
published list is `[custom (weight 3), annealing (weight 4)]` — the row of the
unlisted `"custom"` precedes the row of the table key `"annealing"`, refuting
the claim that rows of table keys always come first. -/
theorem intent_sort_partition_counterexample :
    ¬ (update envAnnealingCustom).Pairwise
        (fun a b => isKnown b.intent_category = true →
          isKnown a.intent_category = true) := by
  intro h
  have he : update envAnnealingCustom = [rowFor 2 1 "custom", rowFor 2 0 "annealing"] := rfl
  rw [he] at h
  have h2 := (List.pairwise_cons.mp h).1 (rowFor 2 0 "annealing")
    (List.mem_cons_self _ _)
  have h3 : isKnown (rowFor 2 0 "annealing").intent_category = true := rfl
  have h4 : isKnown (rowFor 2 1 "custom").intent_category = false := rfl
  rw [h2 h3] at h4
  exact Bool.noConfusion h4

/-- C2 (amended): for every recompute that publishes a non-empty list, the
rows whose categories are not keys of the static table appear in the same
relative order as their categories in the available-category list; and
whenever the number of available categories is at least the table size, every
row whose category is a table key precedes every row whose category is not
(without that bound the `len(available_categories) + i` fallback weight can
undercut a table position, as the counterexample shows). -/
theorem intent_sort_partition (env : Env)
    (h1 : env.globalStack = some ()) (h2 : env.activeMaterialsCompatible = true) :
    ((defaultProfileKeys.length ≤ env.currentAvailableIntentCategories.length) →
      (update env).Pairwise
        (fun a b => isKnown b.intent_category = true →
          isKnown a.intent_category = true))
    ∧ ((update env).filter (fun r => !isKnown r.intent_category)).map
          (·.intent_category)
        = env.currentAvailableIntentCategories.filter (fun c => !isKnown c) := by
  have hperm := update_perm_resultRows h1 h2
  constructor
  · intro hlen
    have hs : (update env).Pairwise byWeight := sorted_update env
    have hs' := List.Pairwise.and_mem.mp hs
    refine List.Pairwise.imp (fun {a b} hmem hkb => ?_) hs'
    obtain ⟨ha, hb, hab⟩ := hmem
    by_contra hka
    have hka' : isKnown a.intent_category = false := by
      cases hx : isKnown a.intent_category
      · rfl
      · exact absurd hx hka
    have hma := hperm.mem_iff.mp ha
    have hmb := hperm.mem_iff.mp hb
    have h5 := le_weight_of_unknown_mem hma hka'
    have h6 := weight_lt_of_known_mem hmb hkb
    have hab' : a.weight ≤ b.weight := hab
    omega
  · have hfperm := hperm.filter (fun r => !isKnown r.intent_category)
    have hfb : ((resultRows env.currentAvailableIntentCategories.length 0
          env.currentAvailableIntentCategories).filter
            (fun r => !isKnown r.intent_category)).Pairwise byWeightLT := by
      have hpw := pairwise_unknown_weight
        (n := env.currentAvailableIntentCategories.length)
        env.currentAvailableIntentCategories 0
      have hfilter := hpw.filter (fun r => !isKnown r.intent_category)
      have hfilter' := List.Pairwise.and_mem.mp hfilter
      refine List.Pairwise.imp (fun {a b} hmem => ?_) hfilter'
      obtain ⟨ha, hb, hcond⟩ := hmem
      have ha' : isKnown a.intent_category = false := by
        have := (List.mem_filter.mp ha).2
        simpa using this
      have hb' : isKnown b.intent_category = false := by
        have := (List.mem_filter.mp hb).2
        simpa using this
      exact hcond ha' hb'
    have hfu : ((update env).filter
        (fun r => !isKnown r.intent_category)).Pairwise byWeightLT := by
      have hsort := (sorted_update env).filter (fun r => !isKnown r.intent_category)
      have hmapb : ((((resultRows env.currentAvailableIntentCategories.length 0
            env.currentAvailableIntentCategories).filter
              (fun r => !isKnown r.intent_category)).map (·.weight)).Pairwise
          (· < ·)) := List.pairwise_map.mpr hfb
      have hnodupb : ((((resultRows env.currentAvailableIntentCategories.length 0
            env.currentAvailableIntentCategories).filter
              (fun r => !isKnown r.intent_category)).map (·.weight)).Nodup) :=
        hmapb.imp (fun h => Nat.ne_of_lt h)
      have hnodupu := ((hfperm.map (·.weight)).nodup_iff).mpr hnodupb
      have hne := List.pairwise_map.mp hnodupu
      exact List.Pairwise.imp₂ (fun a b hle hn => Nat.lt_of_le_of_ne hle hn) hsort hne
    have heq : (update env).filter (fun r => !isKnown r.intent_category)
        = (resultRows env.currentAvailableIntentCategories.length 0
            env.currentAvailableIntentCategories).filter
              (fun r => !isKnown r.intent_category) :=
      List.eq_of_perm_of_sorted hfperm hfu hfb
    rw [heq, filter_map_resultRows]

theorem intent_sort_partition_witness :
    ((update envAllPlusCustom).Pairwise
        (fun a b => isKnown b.intent_category = true →
          isKnown a.intent_category = true))
    ∧ ((update envAllPlusCustom).filter (fun r => !isKnown r.intent_category)).map
          (·.intent_category)
        = envAllPlusCustom.currentAvailableIntentCategories.filter
            (fun c => !isKnown c) :=
  ⟨(intent_sort_partition envAllPlusCustom rfl rfl).1 (by decide),
   (intent_sort_partition envAllPlusCustom rfl rfl).2⟩

/-- C3 counterexample: two active-material-changed trigger events within any
window produce two recomputes, not one, and leave the timer state untouched:
the trigger signals are wired directly to `_update`, not to the debounce
timer, so nothing collapses them. -/
theorem intent_debounce_counterexample :
    (run envDefaultOnly initState
        [Event.activeMaterialChanged, Event.activeMaterialChanged]).recomputeCount = 2
    ∧ (run envDefaultOnly initState
        [Event.activeMaterialChanged, Event.activeMaterialChanged]).timerRunning
        = initState.timerRunning
    ∧ (2 : Nat) ≠ 1 :=
  ⟨rfl, rfl, by decide⟩

/-- C3 (amended): the material, variant, extruder and extruder-set trigger
events each invoke `_update` directly and synchronously — one recompute per
event, leaving the single-shot timer untouched — so `k` repeated trigger
events produce exactly `k` recomputes rather than one; only construction
(`_onChange`) schedules a recompute through the debounce timer. -/
theorem intent_triggers_recompute_directly (env : Env) (s : ModelState) :
    (∀ e, e ∈ [Event.activeMaterialChanged, Event.activeVariantChanged,
          Event.extruderChanged, Event.extrudersChanged] →
        (step env s e).recomputeCount = s.recomputeCount + 1
        ∧ (step env s e).timerRunning = s.timerRunning
        ∧ (step env s e).items = update env)
    ∧ ∀ k : Nat,
        (run env s (List.replicate k Event.activeMaterialChanged)).recomputeCount
          = s.recomputeCount + k := by
  constructor
  · intro e he
    simp only [List.mem_cons, List.not_mem_nil, or_false] at he
    rcases he with rfl | rfl | rfl | rfl
    · exact ⟨rfl, rfl, rfl⟩
    · exact ⟨rfl, rfl, rfl⟩
    · exact ⟨rfl, rfl, rfl⟩
    · exact ⟨rfl, rfl, rfl⟩
  · intro k
    induction k generalizing s with
    | zero => rfl
    | succ k ih =>
      rw [List.replicate_succ]
      have hrun : run env s
          (Event.activeMaterialChanged :: List.replicate k Event.activeMaterialChanged)
          = run env (step env s Event.activeMaterialChanged)
              (List.replicate k Event.activeMaterialChanged) := rfl
      rw [hrun, ih]
      have hstep : (step env s Event.activeMaterialChanged).recomputeCount
          = s.recomputeCount + 1 := rfl
      rw [hstep]
      omega

theorem intent_triggers_recompute_directly_witness :
    ((step envDefaultOnly initState Event.extruderChanged).recomputeCount
        = initState.recomputeCount + 1
      ∧ (step envDefaultOnly initState Event.extruderChanged).timerRunning
        = initState.timerRunning
      ∧ (step envDefaultOnly initState Event.extruderChanged).items
        = update envDefaultOnly)
    ∧ (run envDefaultOnly initState
        (List.replicate 3 Event.activeMaterialChanged)).recomputeCount
        = initState.recomputeCount + 3 :=
  ⟨(intent_triggers_recompute_directly envDefaultOnly initState).1
      Event.extruderChanged (by decide),
   (intent_triggers_recompute_directly envDefaultOnly initState).2 3⟩

end IntentSelectionModel
